import Mathlib

/-!
Verification of the access-profile spreadsheet parser.

The development shallowly embeds the row-decoding pipeline of
`access_profile_automation.py` (class `OpenAccessProfilesXLSX`, called V1
below) and the structure scanner and row processor of
`backup/access_profile_automation_v2.py` (V2 below).

A spreadsheet sheet is modelled as a list of rows, each row a list of
cells; a cell is `none` (an empty / missing cell) or `some s` (a string
value).  Python dictionaries (which preserve insertion order and update
keys in place) are modelled as association lists together with the
`upsert` operation below.
-/

/-- Cell of the grid: `none` models Python `None`, `some s` a string value. -/
abbrev Cell := Option String

/-- One spreadsheet row. -/
abbrev Row := List Cell

/-- The whole sheet, as handed to the parser by `iter_rows(values_only=True)`. -/
abbrev Grid := List Row

/-- Category-row keywords of V1 (`access_profile_automation.py`, line 56). -/
def categoryKeywords : List String :=
  ["Conductor", "storm Contact", "UC", "DataManagement", "Dial ", "Flow"]

/-- Heading-row keywords of V1 (line 70). -/
def headingKeywords : List String := ["Actions", "Announcements", "Menus"]

/-- Heading names at which the positional category cursor advances (line 105). -/
def boundaryHeadings : List String :=
  ["Agent Groups", "Call Barring Profiles", "Queries", "Pacing Profiles", "Flow Services"]

/-- Operators marking an inactive entry (line 107).  V1 compares the
lower-cased, UNtrimmed operator against this list. -/
def sentinelOperators : List String := ["none", "not in use"]

/-- Does some cell of the row equal one of the keywords (Python
`any(cell in keywords for cell in row)`; a `None` cell never matches). -/
def rowHasAny (keys : List String) (row : Row) : Bool :=
  row.any fun c =>
    match c with
    | some s => keys.contains s
    | none => false

/-- Decidable check that `pat` is a prefix of `s` (as character lists). -/
def listPre : List Char → List Char → Bool
  | [], _ => true
  | _ :: _, [] => false
  | a :: as, b :: bs => a == b && listPre as bs

/-- Decidable substring check on character lists. -/
def listSub (pat : List Char) : List Char → Bool
  | [] => pat.isEmpty
  | b :: bs => listPre pat (b :: bs) || listSub pat bs

/-- Python `pat in s` on strings. -/
def strContains (s pat : String) : Bool := listSub pat.toList s.toList

/-- ASCII lower-casing of one character (the model of Python `str.lower`
restricted to the ASCII data the sheets contain). -/
def pyLowerChar (c : Char) : Char :=
  if 65 ≤ c.toNat ∧ c.toNat ≤ 90 then Char.ofNat (c.toNat + 32) else c

/-- Python `s.lower()`. -/
def pyLower (s : String) : String := String.mk (s.data.map pyLowerChar)

/-- Python whitespace for `str.strip`. -/
def isPyWs (c : Char) : Bool :=
  c = ' ' || c = '\t' || c = '\n' || c = '\r' || c = '\x0b' || c = '\x0c'

/-- Python `s.strip()`: leading and trailing whitespace removed. -/
def pyStrip (s : String) : String :=
  String.mk (((s.data.dropWhile isPyWs).reverse.dropWhile isPyWs).reverse)

/-- Python-dict update: if the key is present its value is replaced in place
(position kept); otherwise the new binding is appended at the end.  `f`
receives the old value when one exists, mirroring `defaultdict`
auto-vivification. -/
def upsert {α β : Type} [DecidableEq α] (k : α) (f : Option β → β) :
    List (α × β) → List (α × β)
  | [] => [(k, f none)]
  | (k', v) :: rest =>
    if k = k' then (k', f (some v)) :: rest else (k', v) :: upsert k f rest

/-- Leaf of the nested store: the `[operator, value]` pair.  The operator is
always a string (V1 called `.lower()` on it); the value is stored raw. -/
abbrev OpVal := String × Cell

/-- heading → [operator, value]. -/
abbrev HeadingMap := List (String × OpVal)

/-- category → heading map. -/
abbrev CategoryMap := List (String × HeadingMap)

/-- filter → category map.  The filter cell is used as a dict key unchecked,
so it may be `None`; the key type is therefore `Cell`. -/
abbrev FilterMap := List (Cell × CategoryMap)

/-- profile name → filter map: the 4-level nested result dictionary. -/
abbrev ProfileStore := List (String × FilterMap)

instance : DecidableEq HeadingMap := inferInstance

instance : DecidableEq CategoryMap := inferInstance

instance : DecidableEq FilterMap := inferInstance

instance : DecidableEq ProfileStore := inferInstance

/-- The V1 assignment
`dict[name][filter][category][heading] = [operator, value]` on the nested
defaultdict. -/
def insertPS (st : ProfileStore) (name : String) (filt : Cell)
    (cat hd : String) (p : OpVal) : ProfileStore :=
  upsert name
    (fun fm =>
      upsert filt
        (fun cm =>
          upsert cat
            (fun hm => upsert hd (fun _ => p) (hm.getD []))
            (cm.getD []))
        (fm.getD []))
    st

/-- One entry produced while decoding a data row. -/
structure Emitted where
  category : String
  heading : String
  operator : String
  value : Cell
deriving DecidableEq, Repr

/-- The two kinds of runtime fault the V1 inner loop can raise:
`outOfBounds` models an `IndexError` on `row[2*i]`, `row[2*i+1]` or
`categories[cat_index]`; `noneLower` models the `AttributeError` raised by
`.lower()` on a `None` cell. -/
inductive DecodeFault where
  | outOfBounds
  | noneLower
deriving DecidableEq, Repr

/-- The V1 inner loop over headings (lines 103-109): the cursor `c` is
`cat_index`, incremented before the operator test whenever the heading is a
boundary heading; an entry is emitted unless the lower-cased operator is a
sentinel. -/
def decodeLoop (cats : List String) (cells : List Cell) :
    List String → Nat → Nat → Except DecodeFault (List Emitted)
  | [], _, _ => .ok []
  | h :: hs, i, c =>
    let c' := if boundaryHeadings.contains h then c + 1 else c
    match cells[2 * i]? with
    | none => .error .outOfBounds
    | some none => .error .noneLower
    | some (some op) =>
      if sentinelOperators.contains (pyLower op) then
        decodeLoop cats cells hs (i + 1) c'
      else
        match cells[2 * i + 1]? with
        | none => .error .outOfBounds
        | some v =>
          match cats[c']? with
          | none => .error .outOfBounds
          | some cat =>
            match decodeLoop cats cells hs (i + 1) c' with
            | .error e => .error e
            | .ok rest => .ok (⟨cat, h, op, v⟩ :: rest)

/-- Fold the emitted entries of one data row into the store, in order. -/
def insertAll (st : ProfileStore) (name : String) (filt : Cell)
    (es : List Emitted) : ProfileStore :=
  es.foldl (fun s e => insertPS s name filt e.category e.heading (e.operator, e.value)) st

/-- The V1 data-row loop (lines 93-109).  Python reads `row[0]` and `row[1]`
of the offset-shifted row before the end-of-table test, so a row too short
for them faults; a `None` or empty name breaks out of the scan returning the
store built so far; a decode fault aborts the whole parse. -/
def processDataRows (cats hds : List String) (offset : Nat)
    (st : ProfileStore) : List Row → Option ProfileStore
  | [] => some st
  | row :: rest =>
    let r := row.drop offset
    match r[0]?, r[1]? with
    | some (some name), some filt =>
      if name = "" then some st
      else
        match decodeLoop cats (r.drop 2) hds 0 0 with
        | .error _ => none
        | .ok es => processDataRows cats hds offset (insertAll st name filt es) rest
    | some none, some _ => some st
    | _, _ => none

/-- The column offset of the profile-name column (lines 81-90): index of the
first non-empty cell of the sub-header row whose lower-cased text contains
`"name"`; if none matches, the final value of the Python counter is the row
length. -/
def computeOffset (row : Row) : Nat :=
  match row.findIdx? (fun c =>
      match c with
      | some s => s ≠ "" && strContains (pyLower s) "name"
      | none => false) with
  | some i => i
  | none => row.length

/-- The V1 parse over an already-selected sheet (lines 48-109, `debug=False`).
The category scan walks the whole grid; failure to find a category row raises
(`none`).  The heading scan restarts at the category row; if it never
matches, `self.headings` stays unset but with `debug=False` nothing touches
it and the parse completes with an empty store.  The row after the heading
row is consumed to compute the name-column offset, and data rows start one
row later. -/
def parseGrid (grid : Grid) : Option ProfileStore :=
  match grid.findIdx? (rowHasAny categoryKeywords) with
  | none => none
  | some r0 =>
    let categories := ((grid[r0]?).getD []).filterMap id
    match (grid.drop r0).findIdx? (rowHasAny headingKeywords) with
    | none => some []
    | some k =>
      let headings := (((grid.drop r0)[k]?).getD []).filterMap id
      match grid.drop (r0 + k + 1) with
      | [] => some []
      | subHeader :: dataRows =>
        processDataRows categories headings (computeOffset subHeader) [] dataRows

/-- Scenario-1 grid: category row `["UC","Flow"]` at columns 2 and 5, heading
row `["Actions","Menus","Queries"]` at columns 2, 3 and 5, the `Name`
sub-header row, and the single data row. -/
def c1Grid : Grid :=
  [ [none, none, some "UC", none, none, some "Flow"],
    [none, none, some "Actions", some "Menus", none, some "Queries"],
    [some "Name", some "Filter", none, none, none, none],
    [some "P1", some "F1", some "Allow", some "G1", some "none", some "-",
      some "Deny", some "Q1"] ]

/-- The nested output claimed for Scenario 1. -/
def c1Expected : ProfileStore :=
  [("P1", [(some "F1",
    [("UC", [("Actions", ("Allow", some "G1"))]),
     ("Flow", [("Queries", ("Deny", some "Q1"))])])])]

/-- Claim C1: on the Scenario-1 grid the parse produces exactly the nested
output `P1 → F1 → {UC → {Actions ↦ [Allow, G1]}, Flow → {Queries ↦
[Deny, Q1]}}`; the `Menus` heading is absent because its operator is
`"none"`. -/
theorem c1_scenario1_parse : parseGrid c1Grid = some c1Expected := by
  rfl

/-- Composing two updates at the same key collapses to one update. -/
theorem upsert_upsert {α β : Type} [DecidableEq α] (k : α) (f g : Option β → β)
    (l : List (α × β)) :
    upsert k f (upsert k g l) = upsert k (fun o => f (some (g o))) l := by
  induction l with
  | nil => simp [upsert]
  | cons kv rest ih =>
    obtain ⟨k', v⟩ := kv
    by_cases h : k = k'
    · simp [upsert, h]
    · simp [upsert, h, ih]

/-- If the outer update ignores an inner update of the same key, the inner
update can be dropped. -/
theorem upsert_absorb {α β : Type} [DecidableEq α] (k : α) (f g : Option β → β)
    (l : List (α × β)) (h : ∀ o, f (some (g o)) = f o) :
    upsert k f (upsert k g l) = upsert k f l := by
  rw [upsert_upsert]
  have hf : (fun o => f (some (g o))) = f := funext h
  rw [hf]

/-- A second insert along the same 4-level key path overwrites the first. -/
theorem insertPS_absorb (st : ProfileStore) (n : String) (flt : Cell)
    (c hd : String) (p q : OpVal) :
    insertPS (insertPS st n flt c hd p) n flt c hd q = insertPS st n flt c hd q := by
  unfold insertPS
  apply upsert_absorb
  intro o
  simp only [Option.getD_some]
  apply upsert_absorb
  intro o2
  simp only [Option.getD_some]
  apply upsert_absorb
  intro o3
  simp only [Option.getD_some]
  apply upsert_absorb
  intro o4
  rfl

/-- Claim C5: `ProfileStore` insertion is last-write-wins on a duplicated
`(name, filter, category, heading)` key path — the store after both inserts
equals the store after the later insert alone — and in particular repeating
an identical insert leaves the store unchanged. -/
theorem c5_insert_duplicate_policy :
    ∀ (st : ProfileStore) (n : String) (flt : Cell) (c hd : String) (p q : OpVal),
      insertPS (insertPS st n flt c hd p) n flt c hd q = insertPS st n flt c hd q ∧
      insertPS (insertPS st n flt c hd p) n flt c hd p = insertPS st n flt c hd p :=
  fun st n flt c hd p q =>
    ⟨insertPS_absorb st n flt c hd p q, insertPS_absorb st n flt c hd p p⟩

/-- Updating at key `k` keeps the existing key order and appends `k` at the
end exactly when it is new. -/
theorem upsert_keys {α β : Type} [DecidableEq α] (k : α) (f : Option β → β)
    (l : List (α × β)) :
    (upsert k f l).map Prod.fst =
      if k ∈ l.map Prod.fst then l.map Prod.fst else l.map Prod.fst ++ [k] := by
  induction l with
  | nil => simp [upsert]
  | cons kv rest ih =>
    obtain ⟨k', v⟩ := kv
    by_cases h : k = k'
    · subst h
      simp [upsert]
    · by_cases hm : k ∈ rest.map Prod.fst
      · simp [upsert, h, ih, hm, Ne.symm h]
      · simp [upsert, h, ih, hm, Ne.symm h]

/-- Grid with two data rows, profile `P2` first, then `P1`. -/
def c6Grid : Grid :=
  [ [some "UC", some "Flow"],
    [some "Actions"],
    [some "Name"],
    [some "P2", some "F", some "Allow", some "X"],
    [some "P1", some "F", some "Allow", some "Y"] ]

/-- Expected nested output for `c6Grid`: profile keys in first-seen row
order `P2, P1`. -/
def c6Expected : ProfileStore :=
  [("P2", [(some "F", [("UC", [("Actions", ("Allow", some "X"))])])]),
   ("P1", [(some "F", [("UC", [("Actions", ("Allow", some "Y"))])])])]

/-- Claim C6: every level of the nested store preserves insertion order — an
update at any level keeps the existing keys in order and appends a new key at
the end (first conjunct, covering all four levels since each level is an
`upsert`; second conjunct instantiates this at the profile level of
`insertPS`) — and on a concrete grid whose rows introduce `P2` before `P1`
the parsed output enumerates the profile keys in that first-seen order. -/
theorem c6_insertion_order :
    (∀ (α β : Type) (inst : DecidableEq α) (k : α) (f : Option β → β)
        (l : List (α × β)),
        (@upsert α β inst k f l).map Prod.fst =
          if k ∈ l.map Prod.fst then l.map Prod.fst else l.map Prod.fst ++ [k]) ∧
    (∀ (st : ProfileStore) (n : String) (flt : Cell) (c hd : String) (p : OpVal),
        (insertPS st n flt c hd p).map Prod.fst =
          if n ∈ st.map Prod.fst then st.map Prod.fst else st.map Prod.fst ++ [n]) ∧
    parseGrid c6Grid = some c6Expected := by
  refine ⟨?_, ?_, ?_⟩
  · intro α β inst k f l
    exact upsert_keys k f l
  · intro st n flt c hd p
    exact upsert_keys n _ st
  · rfl

/-- Value of the category cursor used for heading `j`: the number of
category-boundary headings among `hds[0..j]` (the increment happens before
the entry for heading `j` is stored). -/
def cursorAt (hds : List String) (j : Nat) : Nat :=
  (hds.take (j + 1)).countP (fun h => boundaryHeadings.contains h)

/-- What heading `h` contributes when its operator pair sits at positions
`pos, pos+1` of the cell list and the category cursor stands at `cur`. -/
def emitCore (cats : List String) (cells : List Cell) (pos cur : Nat)
    (h : String) : Option Emitted :=
  match cells[pos]? with
  | some (some op) =>
    if sentinelOperators.contains (pyLower op) then none
    else
      match cells[pos + 1]?, cats[cur]? with
      | some v, some cat => some ⟨cat, h, op, v⟩
      | _, _ => none
  | _ => none

/-- Specification-level description of the entry decoded for heading index
`j` of a data row: operator at `row[2*j]`, value at `row[2*j+1]`, category
at index `cursorAt hds j`. -/
def emitAt (cats hds : List String) (cells : List Cell) (j : Nat) : Option Emitted :=
  (hds[j]?).bind (fun h => emitCore cats cells (2 * j) (cursorAt hds j) h)

/-- Splitting a `filterMap` over `range (n+1)` into its head contribution and
the shifted tail. -/
theorem filterMap_range_succ {γ : Type} (f : Nat → Option γ) (n : Nat) :
    List.filterMap f (List.range (n + 1)) =
      (match f 0 with
       | none => List.filterMap (fun j => f (j + 1)) (List.range n)
       | some b => b :: List.filterMap (fun j => f (j + 1)) (List.range n)) := by
  rw [List.range_succ_eq_map, List.filterMap_cons, List.filterMap_map]
  cases hf : f 0 <;> rfl

/-- Head case of `filterMap_range_succ` when the head contributes nothing. -/
theorem filterMap_range_succ_none {γ : Type} (f : Nat → Option γ) (n : Nat)
    (h : f 0 = none) :
    List.filterMap f (List.range (n + 1)) =
      List.filterMap (fun j => f (j + 1)) (List.range n) := by
  rw [filterMap_range_succ, h]

/-- Head case of `filterMap_range_succ` when the head contributes `b`. -/
theorem filterMap_range_succ_some {γ : Type} (f : Nat → Option γ) (n : Nat)
    (b : γ) (h : f 0 = some b) :
    List.filterMap f (List.range (n + 1)) =
      b :: List.filterMap (fun j => f (j + 1)) (List.range n) := by
  rw [filterMap_range_succ, h]

/-- Characterization of a successful decode, generalized over the remaining
headings `hs`, the heading index `i` and the incoming cursor `c`. -/
theorem decodeLoop_ok_spec (cats : List String) (cells : List Cell) :
    ∀ (hs : List String) (i c : Nat) (es : List Emitted),
      decodeLoop cats cells hs i c = .ok es →
      es = (List.range hs.length).filterMap (fun j =>
        (hs[j]?).bind (fun h =>
          emitCore cats cells (2 * (i + j)) (c + cursorAt hs j) h)) := by
  intro hs
  induction hs with
  | nil =>
    intro i c es hok
    simp [decodeLoop] at hok
    simp [hok.symm]
  | cons h tl ih =>
    intro i c es hok
    have hstep : ∀ j : Nat,
        (((h :: tl)[j + 1]?).bind (fun h' =>
          emitCore cats cells (2 * (i + (j + 1))) (c + cursorAt (h :: tl) (j + 1)) h'))
        = ((tl[j]?).bind (fun h' =>
          emitCore cats cells (2 * ((i + 1) + j))
            ((if h ∈ boundaryHeadings then c + 1 else c) + cursorAt tl j) h')) := by
      intro j
      have h1 : 2 * (i + (j + 1)) = 2 * ((i + 1) + j) := by ring
      have h2 : c + cursorAt (h :: tl) (j + 1)
          = (if h ∈ boundaryHeadings then c + 1 else c) + cursorAt tl j := by
        by_cases hb : h ∈ boundaryHeadings <;>
          simp [cursorAt, List.take_succ_cons, List.countP_cons, hb] <;> omega
      rw [List.getElem?_cons_succ, h1, h2]
    have hcur0 : c + cursorAt (h :: tl) 0
        = (if h ∈ boundaryHeadings then c + 1 else c) := by
      by_cases hb : h ∈ boundaryHeadings <;>
        simp [cursorAt, List.take_succ_cons, List.countP_cons, hb]
    cases hget : cells[2 * i]? with
    | none => simp [decodeLoop, hget] at hok
    | some cell =>
      cases cell with
      | none => simp [decodeLoop, hget] at hok
      | some op =>
        by_cases hsent : pyLower op ∈ sentinelOperators
        · simp [decodeLoop, hget, hsent] at hok
          have hes := ih (i + 1) _ es hok
          rw [hes, List.length_cons]
          rw [filterMap_range_succ_none (fun j => ((h :: tl)[j]?).bind fun h' =>
                emitCore cats cells (2 * (i + j)) (c + cursorAt (h :: tl) j) h')
              tl.length (by simp [emitCore, hget, hsent, hcur0])]
          exact List.filterMap_congr fun j _ => (hstep j).symm
        · cases hv : cells[2 * i + 1]? with
          | none => simp [decodeLoop, hget, hsent, hv] at hok
          | some v =>
            cases hcat : cats[(if h ∈ boundaryHeadings then c + 1 else c)]? with
            | none => simp [decodeLoop, hget, hsent, hv, hcat] at hok
            | some cat =>
              cases hrec : decodeLoop cats cells tl (i + 1)
                  (if h ∈ boundaryHeadings then c + 1 else c) with
              | error e => simp [decodeLoop, hget, hsent, hv, hcat, hrec] at hok
              | ok rest =>
                have hes : es = ⟨cat, h, op, v⟩ :: rest := by
                  simp [decodeLoop, hget, hsent, hv, hcat, hrec] at hok
                  exact hok.symm
                have hrest := ih (i + 1) _ rest hrec
                rw [hes, List.length_cons]
                rw [filterMap_range_succ_some (fun j => ((h :: tl)[j]?).bind fun h' =>
                      emitCore cats cells (2 * (i + j)) (c + cursorAt (h :: tl) j) h')
                    tl.length ⟨cat, h, op, v⟩
                    (by simp [emitCore, hget, hsent, hcur0, hv, hcat])]
                rw [hrest]
                exact congrArg (List.cons _)
                  (List.filterMap_congr fun j _ => (hstep j).symm)

/-- Claim C2: under the positional fallback strategy a successfully decoded
data row is exactly the sequence of entries described by the category
cursor: walking headings in order, the cursor starts at the first category
and the entry for heading `j` (emitted iff its operator is active) is stored
under the category at index `cursorAt hds j`, the count of category-boundary
headings among `hds[0..j]` — i.e. the cursor is incremented by one exactly at
the boundary headings, before the entry is stored. -/
theorem c2_positional_cursor (cats hds : List String) (cells : List Cell)
    (es : List Emitted) (hok : decodeLoop cats cells hds 0 0 = .ok es) :
    es = (List.range hds.length).filterMap (emitAt cats hds cells) := by
  rw [decodeLoop_ok_spec cats cells hds 0 0 es hok]
  exact List.filterMap_congr fun j _ => by simp [emitAt]

/-- Witness for C2 at the Scenario-1 data row. -/
theorem c2_positional_cursor_witness :
    ([⟨"UC", "Actions", "Allow", some "G1"⟩,
      ⟨"Flow", "Queries", "Deny", some "Q1"⟩] : List Emitted) =
      (List.range 3).filterMap
        (emitAt ["UC", "Flow"] ["Actions", "Menus", "Queries"]
          [some "Allow", some "G1", some "none", some "-", some "Deny", some "Q1"]) :=
  c2_positional_cursor ["UC", "Flow"] ["Actions", "Menus", "Queries"]
    [some "Allow", some "G1", some "none", some "-", some "Deny", some "Q1"]
    _ (by rfl)

/-- An `[operator, value]` pair is active when its lower-cased (untrimmed)
operator is not a sentinel — the exact test V1 applies before storing. -/
def activeOp (e : OpVal) : Bool := !(sentinelOperators.contains (pyLower e.1))

/-- All leaves of the nested store satisfy `p`. -/
def storeAll (p : OpVal → Bool) (st : ProfileStore) : Bool :=
  st.all fun nf => nf.2.all fun fc => fc.2.all fun ch => ch.2.all fun he => p he.2

/-- An `upsert` keeps an all-values invariant provided the update function
does. -/
theorem all_upsert {α β : Type} [DecidableEq α] (q : β → Bool) (k : α)
    (f : Option β → β) (l : List (α × β))
    (hl : l.all (fun kv => q kv.2) = true)
    (hf : ∀ o : Option β, (∀ v, o = some v → q v = true) → q (f o) = true) :
    (upsert k f l).all (fun kv => q kv.2) = true := by
  induction l with
  | nil =>
    simp [upsert]
    exact hf none (by intro v hv; cases hv)
  | cons kv rest ih =>
    obtain ⟨k', v⟩ := kv
    simp only [List.all_cons, Bool.and_eq_true] at hl
    obtain ⟨hv, hrest⟩ := hl
    by_cases h : k = k'
    · simp only [upsert, if_pos h, List.all_cons, Bool.and_eq_true]
      exact ⟨hf (some v) (by intro v' hv'; cases hv'; exact hv), hrest⟩
    · simp only [upsert, if_neg h, List.all_cons, Bool.and_eq_true]
      exact ⟨hv, ih hrest⟩

/-- Inserting an entry satisfying `p` preserves the store invariant. -/
theorem storeAll_insertPS (p : OpVal → Bool) (st : ProfileStore) (n : String)
    (flt : Cell) (c hd : String) (e : OpVal)
    (hst : storeAll p st = true) (he : p e = true) :
    storeAll p (insertPS st n flt c hd e) = true := by
  unfold storeAll at hst ⊢
  unfold insertPS
  refine all_upsert
    (fun fm : FilterMap => fm.all fun fc => fc.2.all fun ch => ch.2.all fun he => p he.2)
    n _ st hst ?_
  intro o ho
  refine all_upsert
    (fun cm : CategoryMap => cm.all fun ch => ch.2.all fun he => p he.2) flt _ _ ?_ ?_
  · cases o with
    | none => simp
    | some fm => exact ho fm rfl
  · intro o2 ho2
    refine all_upsert (fun hm : HeadingMap => hm.all fun he => p he.2) c _ _ ?_ ?_
    · cases o2 with
      | none => simp
      | some cm => exact ho2 cm rfl
    · intro o3 ho3
      refine all_upsert p hd _ _ ?_ ?_
      · cases o3 with
        | none => simp
        | some hm => exact ho3 hm rfl
      · intro o4 _
        exact he

/-- An entry produced by `emitCore` never carries a sentinel operator. -/
theorem emitCore_active (cats : List String) (cells : List Cell)
    (pos cur : Nat) (h : String) (e : Emitted)
    (hemit : emitCore cats cells pos cur h = some e) :
    sentinelOperators.contains (pyLower e.operator) = false := by
  unfold emitCore at hemit
  cases hop : cells[pos]? with
  | none => simp [hop] at hemit
  | some cell =>
    cases cell with
    | none => simp [hop] at hemit
    | some op =>
      by_cases hs : pyLower op ∈ sentinelOperators
      · simp [hop, hs] at hemit
      · cases hv : cells[pos + 1]? with
        | none => simp [hop, hs, hv] at hemit
        | some v =>
          cases hcat : cats[cur]? with
          | none => simp [hop, hs, hv, hcat] at hemit
          | some cat =>
            simp [hop, hs, hv, hcat] at hemit
            rw [← hemit]
            simpa using hs

/-- Every entry of a successful decode carries an active operator. -/
theorem decodeLoop_ok_active (cats : List String) (cells : List Cell)
    (hs : List String) (i c : Nat) (es : List Emitted)
    (hok : decodeLoop cats cells hs i c = .ok es) :
    ∀ e ∈ es, activeOp (e.operator, e.value) = true := by
  intro e he
  rw [decodeLoop_ok_spec cats cells hs i c es hok] at he
  rw [List.mem_filterMap] at he
  obtain ⟨j, _, hemit⟩ := he
  cases hh : hs[j]? with
  | none => rw [hh] at hemit; cases hemit
  | some h =>
    rw [hh, Option.some_bind] at hemit
    have := emitCore_active cats cells _ _ h e hemit
    simpa [activeOp] using this

/-- Folding a row's active entries into the store preserves the invariant. -/
theorem storeAll_insertAll (p : OpVal → Bool) (n : String) (flt : Cell) :
    ∀ (es : List Emitted) (st : ProfileStore),
      storeAll p st = true →
      (∀ e ∈ es, p (e.operator, e.value) = true) →
      storeAll p (insertAll st n flt es) = true := by
  intro es
  induction es with
  | nil => intro st hst _; exact hst
  | cons e es' ih =>
    intro st hst hes
    have hs' : storeAll p (insertPS st n flt e.category e.heading (e.operator, e.value)) = true :=
      storeAll_insertPS p st n flt e.category e.heading _ hst (hes e (by simp))
    exact ih _ hs' (fun e' he' => hes e' (by simp [he']))

/-- The data-row scan keeps the activity invariant of the store. -/
theorem processDataRows_storeAll (cats hds : List String) (offset : Nat) :
    ∀ (rows : List Row) (st st' : ProfileStore),
      storeAll activeOp st = true →
      processDataRows cats hds offset st rows = some st' →
      storeAll activeOp st' = true := by
  intro rows
  induction rows with
  | nil =>
    intro st st' hst hproc
    simp [processDataRows] at hproc
    rw [← hproc]
    exact hst
  | cons row rest ih =>
    intro st st' hst hproc
    cases h0 : (row.drop offset)[0]? with
    | none => simp [processDataRows, h0] at hproc
    | some c0 =>
      cases h1 : (row.drop offset)[1]? with
      | none =>
        cases c0 <;> simp [processDataRows, h0, h1] at hproc
      | some c1 =>
        cases c0 with
        | none =>
          simp [processDataRows, h0, h1] at hproc
          rw [← hproc]; exact hst
        | some name =>
          by_cases hname : name = ""
          · simp [processDataRows, h0, h1, hname] at hproc
            rw [← hproc]; exact hst
          · cases hdec : decodeLoop cats (row.drop (offset + 2)) hds 0 0 with
            | error e => simp [processDataRows, h0, h1, hname, hdec] at hproc
            | ok es =>
              simp [processDataRows, h0, h1, hname, hdec] at hproc
              exact ih _ _
                (storeAll_insertAll activeOp name c1 es st hst
                  (decodeLoop_ok_active cats _ hds 0 0 es hdec)) hproc

/-- Completeness of a successful decode: every in-bounds heading whose
operator cell holds a non-sentinel string contributes an entry. -/
theorem decodeLoop_ok_complete (cats : List String) (cells : List Cell) :
    ∀ (hs : List String) (i c : Nat) (es : List Emitted),
      decodeLoop cats cells hs i c = .ok es →
      ∀ (j : Nat) (h op : String), hs[j]? = some h →
        cells[2 * (i + j)]? = some (some op) →
        sentinelOperators.contains (pyLower op) = false →
        ∃ v cat, (⟨cat, h, op, v⟩ : Emitted) ∈ es := by
  intro hs
  induction hs with
  | nil =>
    intro i c es _ j h op hj
    simp at hj
  | cons hh tl ih =>
    intro i c es hok j h op hj hop hsent
    cases j with
    | zero =>
      rw [Nat.add_zero] at hop
      rw [List.getElem?_cons_zero, Option.some_inj] at hj
      subst hj
      have hsent' : ¬(pyLower op ∈ sentinelOperators) := by simpa using hsent
      cases hv : cells[2 * i + 1]? with
      | none => simp [decodeLoop, hop, hsent', hv] at hok
      | some v =>
        cases hcat : cats[(if hh ∈ boundaryHeadings then c + 1 else c)]? with
        | none => simp [decodeLoop, hop, hsent', hv, hcat] at hok
        | some cat =>
          cases hrec : decodeLoop cats cells tl (i + 1)
              (if hh ∈ boundaryHeadings then c + 1 else c) with
          | error e => simp [decodeLoop, hop, hsent', hv, hcat, hrec] at hok
          | ok rest =>
            simp [decodeLoop, hop, hsent', hv, hcat, hrec] at hok
            exact ⟨v, cat, by rw [← hok]; exact List.mem_cons_self _ _⟩
    | succ j' =>
      rw [List.getElem?_cons_succ] at hj
      have hop' : cells[2 * ((i + 1) + j')]? = some (some op) := by
        rw [show 2 * ((i + 1) + j') = 2 * (i + (j' + 1)) by ring]
        exact hop
      cases hget : cells[2 * i]? with
      | none => simp [decodeLoop, hget] at hok
      | some cell =>
        cases cell with
        | none => simp [decodeLoop, hget] at hok
        | some op0 =>
          by_cases hs0 : pyLower op0 ∈ sentinelOperators
          · simp [decodeLoop, hget, hs0] at hok
            exact ih (i + 1) _ es hok j' h op hj hop' hsent
          · cases hv : cells[2 * i + 1]? with
            | none => simp [decodeLoop, hget, hs0, hv] at hok
            | some v =>
              cases hcat : cats[(if hh ∈ boundaryHeadings then c + 1 else c)]? with
              | none => simp [decodeLoop, hget, hs0, hv, hcat] at hok
              | some cat =>
                cases hrec : decodeLoop cats cells tl (i + 1)
                    (if hh ∈ boundaryHeadings then c + 1 else c) with
                | error e => simp [decodeLoop, hget, hs0, hv, hcat, hrec] at hok
                | ok rest =>
                  simp [decodeLoop, hget, hs0, hv, hcat, hrec] at hok
                  obtain ⟨v', cat', hmem⟩ := ih (i + 1) _ rest hrec j' h op hj hop' hsent
                  exact ⟨v', cat', by rw [← hok]; exact List.mem_cons_of_mem _ hmem⟩

/-- Grid whose data row has operator `" none"` (leading space): V1 lower-cases
but never trims, so the entry is stored. -/
def c3Grid : Grid :=
  [ [some "UC"],
    [some "Actions"],
    [some "Name"],
    [some "P1", some "F1", some " none", some "G1"] ]

/-- Counterexample to claim C3 as stated: the parse stores an entry whose
operator `" none"` trims and lower-cases to the sentinel `"none"`, so the
claimed trimmed-sentinel exclusion does not hold of the resulting store. -/
theorem c3_counterexample :
    parseGrid c3Grid =
      some [("P1", [(some "F1", [("UC", [("Actions", (" none", some "G1"))])])])] ∧
    sentinelOperators.contains (pyLower (pyStrip " none")) = true :=
  ⟨rfl, rfl⟩

/-- Claim C3 (amended: V1 applies no trimming): an entry is emitted iff the
lower-cased — untrimmed — operator cell is not in the sentinel set
`{"none", "not in use"}`: no key path of any parsed store holds an entry
whose lower-cased operator is a sentinel (first conjunct), and every
in-bounds heading whose operator is a non-sentinel string contributes an
entry to its row's decode (second conjunct). -/
theorem c3_sentinel_filter :
    (∀ (g : Grid) (st : ProfileStore), parseGrid g = some st →
      storeAll activeOp st = true) ∧
    (∀ (cats hds : List String) (cells : List Cell) (es : List Emitted)
        (j : Nat) (h op : String),
      decodeLoop cats cells hds 0 0 = .ok es → hds[j]? = some h →
      cells[2 * j]? = some (some op) →
      sentinelOperators.contains (pyLower op) = false →
      ∃ v cat, (⟨cat, h, op, v⟩ : Emitted) ∈ es) := by
  constructor
  · intro g st hparse
    unfold parseGrid at hparse
    cases hfind : g.findIdx? (rowHasAny categoryKeywords) with
    | none => simp [hfind] at hparse
    | some r0 =>
      cases hhead : (g.drop r0).findIdx? (rowHasAny headingKeywords) with
      | none =>
        simp [hfind, hhead] at hparse
        subst hparse
        rfl
      | some k =>
        cases hdrop : g.drop (r0 + k + 1) with
        | nil =>
          simp [hfind, hhead, hdrop] at hparse
          subst hparse
          rfl
        | cons subHeader dataRows =>
          simp [hfind, hhead, hdrop] at hparse
          exact processDataRows_storeAll _ _ _ dataRows [] st rfl hparse
  · intro cats hds cells es j h op hok hj hop hsent
    exact decodeLoop_ok_complete cats cells hds 0 0 es hok j h op hj
      (by rw [Nat.zero_add]; exact hop) hsent

/-- Witness for C3 (amended): the store parsed from `c3Grid` satisfies the
untrimmed-sentinel exclusion, and a concrete non-sentinel operator is
decoded into an entry. -/
theorem c3_sentinel_filter_witness :
    storeAll activeOp
      [("P1", [(some "F1", [("UC", [("Actions", (" none", some "G1"))])])])] = true ∧
    ∃ v cat, (⟨cat, "Actions", "Allow", v⟩ : Emitted) ∈
      ([⟨"UC", "Actions", "Allow", some "G1"⟩] : List Emitted) :=
  ⟨c3_sentinel_filter.1 c3Grid _ (by rfl),
   c3_sentinel_filter.2 ["UC"] ["Actions"] [some "Allow", some "G1"] _ 0
     "Actions" "Allow" (by rfl) (by rfl) (by rfl) (by rfl)⟩

/-- End-of-table test of the V1 data loop: the name cell (after the offset)
is `None` or empty — and, as in the code, the filter cell at index 1 was
readable.  Python evaluates `row[0]` and `row[1]` before the test. -/
def isSentinelRow (offset : Nat) (row : Row) : Bool :=
  match (row.drop offset)[0]?, (row.drop offset)[1]? with
  | some c0, some _ => (c0 == none) || (c0 == some "")
  | _, _ => false

/-- A data row that decodes without fault and does not stop the scan: a
non-empty string name, a readable filter cell, and a fault-free inner
decode. -/
def rowStepOK (cats hds : List String) (offset : Nat) (row : Row) : Bool :=
  match (row.drop offset)[0]?, (row.drop offset)[1]? with
  | some (some name), some _ =>
    (name != "") &&
      (match decodeLoop cats ((row.drop offset).drop 2) hds 0 0 with
       | .ok _ => true
       | .error _ => false)
  | _, _ => false

/-- Claim C4: the data-row scan stops, without error, at the first row whose
name cell is empty or missing: provided all rows before index `k` decode and
continue, and row `k` is a sentinel row, the scan's result equals the result
of processing only the rows before `k` (so rows at or after the sentinel
contribute nothing) and it is a success. -/
theorem c4_sentinel_stop (cats hds : List String) (offset : Nat)
    (st : ProfileStore) (rows : List Row) (k : Nat) (rk : Row)
    (hk : rows[k]? = some rk) (hsent : isSentinelRow offset rk = true)
    (hpre : ∀ j r, j < k → rows[j]? = some r → rowStepOK cats hds offset r = true) :
    processDataRows cats hds offset st rows
      = processDataRows cats hds offset st (rows.take k) ∧
    (processDataRows cats hds offset st rows).isSome = true := by
  revert hk hpre
  induction k generalizing rows st with
  | zero =>
    intro hk _
    cases rows with
    | nil => simp at hk
    | cons r0 rest =>
      rw [List.getElem?_cons_zero, Option.some_inj] at hk
      subst hk
      unfold isSentinelRow at hsent
      cases h0 : r0[offset]? with
      | none => simp [List.getElem?_drop, h0] at hsent
      | some c0 =>
        cases h1 : r0[offset + 1]? with
        | none => simp [List.getElem?_drop, h0, h1] at hsent
        | some c1 =>
          cases c0 with
          | none => simp [processDataRows, List.getElem?_drop, h0, h1]
          | some name =>
            simp [List.getElem?_drop, h0, h1] at hsent
            simp [processDataRows, List.getElem?_drop, h0, h1, hsent]
  | succ k' ih =>
    intro hk hpre
    cases rows with
    | nil => simp at hk
    | cons r0 rest =>
      rw [List.getElem?_cons_succ] at hk
      have h00 := hpre 0 r0 (Nat.succ_pos k') (by simp)
      cases h0 : r0[offset]? with
      | none => simp [rowStepOK, List.getElem?_drop, h0] at h00
      | some c0 =>
        cases h1 : r0[offset + 1]? with
        | none => simp [rowStepOK, List.getElem?_drop, h0, h1] at h00
        | some c1 =>
          cases c0 with
          | none => simp [rowStepOK, List.getElem?_drop, h0, h1] at h00
          | some name =>
            simp [rowStepOK, List.getElem?_drop, h0, h1] at h00
            obtain ⟨hname, hdec⟩ := h00
            cases hrec : decodeLoop cats (r0.drop (offset + 2)) hds 0 0 with
            | error e =>
              rw [hrec] at hdec
              simp at hdec
            | ok es =>
              have hpre' : ∀ j r, j < k' → rest[j]? = some r →
                  rowStepOK cats hds offset r = true := by
                intro j r hj hr
                exact hpre (j + 1) r (Nat.succ_lt_succ hj) (by simpa using hr)
              have hih := ih (insertAll st name c1 es) rest hk hpre'
              constructor
              · rw [List.take_succ_cons]
                simp only [processDataRows, List.getElem?_drop, Nat.add_zero, h0, h1,
                  List.drop_drop]
                rw [if_neg hname, if_neg hname, hrec]
                exact hih.1
              · simp only [processDataRows, List.getElem?_drop, Nat.add_zero, h0, h1,
                  List.drop_drop]
                rw [if_neg hname, hrec]
                exact hih.2

/-- Witness for C4: a good row, then a sentinel row with empty name, then a
garbage row that would fault; the scan equals processing just the good row
and succeeds. -/
theorem c4_sentinel_stop_witness :
    processDataRows ["UC"] ["Actions"] 0 []
        [[some "P", some "F", some "Allow", some "G"], [some "", some "x"], [some "Q"]]
      = processDataRows ["UC"] ["Actions"] 0 []
        [[some "P", some "F", some "Allow", some "G"]] ∧
    (processDataRows ["UC"] ["Actions"] 0 []
        [[some "P", some "F", some "Allow", some "G"], [some "", some "x"],
          [some "Q"]]).isSome = true :=
  c4_sentinel_stop ["UC"] ["Actions"] 0 []
    [[some "P", some "F", some "Allow", some "G"], [some "", some "x"], [some "Q"]]
    1 [some "", some "x"] (by rfl) (by rfl)
    (by
      intro j r hj hr
      have hj0 : j = 0 := by omega
      subst hj0
      have hr2 : [some "P", some "F", some "Allow", some "G"] = r := by simpa using hr
      subst hr2
      rfl)

/-- Grid whose first data row is malformed — one cell after name and filter
where the single heading needs two — followed by a well-formed row. -/
def c7Grid : Grid :=
  [ [some "UC"],
    [some "Actions"],
    [some "Name"],
    [some "P1", some "F1", some "Allow"],
    [some "P2", some "F2", some "Allow", some "G"] ]

/-- Counterexample to claim C7 as stated: in V1 the malformed data row is not
skipped — the IndexError on `row[2*i+1]` aborts the whole parse, and the
well-formed row after it is never decoded. -/
theorem c7_counterexample : parseGrid c7Grid = none := by rfl

/-- The V2 nested store: name → category → heading → [operator, value]
(`_create_nested_dict`, both cells stored stripped strings). -/
abbrev Store3 := List (String × List (String × List (String × (String × String))))

/-- The V2 assignment `dict[name][category][headings[i]] = [operator, value]`. -/
def insertV2 (st : Store3) (name cat hd : String) (p : String × String) : Store3 :=
  upsert name
    (fun cm => upsert cat (fun hm => upsert hd (fun _ => p) (hm.getD [])) (cm.getD []))
    st

/-- The V2 heading loop (`_process_data_rows`, lines 539-552): each pair is
guarded by `2*i+1 < len(row_no_none)`, the operator and value are stripped,
and the category comes from the column mapper (the positional `cat_index` is
computed there but never used for storage, so it is omitted). -/
def decodeRowV2 (mapper : String → String) (name : String) (cells : List String) :
    List String → Nat → Store3 → Store3
  | [], _, st => st
  | h :: hs, i, st =>
    let st' :=
      match cells[2 * i]?, cells[2 * i + 1]? with
      | some op, some v =>
        if sentinelOperators.contains (pyLower (pyStrip op)) then st
        else insertV2 st name (mapper h) h (pyStrip op, pyStrip v)
      | _, _ => st
    decodeRowV2 mapper name cells hs (i + 1) st'

/-- One data row of the V2 processor (lines 517-557): rows with fewer than
two non-null cells, or an empty stripped name or filter, are skipped with
`continue`. -/
def stepRowV2 (headings : List String) (mapper : String → String)
    (st : Store3) (row : Row) : Store3 :=
  match row.filterMap id with
  | c0 :: c1 :: rest =>
    if pyStrip c0 = "" ∨ pyStrip c1 = "" then st
    else decodeRowV2 mapper (pyStrip c0) rest headings 0 st
  | _ => st

/-- The V2 data-row loop over all rows. -/
def processRowsV2 (headings : List String) (mapper : String → String)
    (rows : List Row) (st : Store3) : Store3 :=
  rows.foldl (stepRowV2 headings mapper) st

/-- Claim C7 (amended): V1 aborts the whole parse on a malformed data row
(counterexample `c7_counterexample`); the recovery behaviour the claim
describes belongs to the V2 row processor, where it is weaker than claimed:
a row with fewer than two non-null cells is skipped entirely and subsequent
rows are still decoded (first conjunct), and heading pairs beyond the end of
a short row are dropped without faulting (second conjunct); no error counter
is incremented for such rows — the counter only counts exception-raising
rows, with at most the first 10 printed. -/
theorem c7_v2_recovery :
    (∀ (headings : List String) (mapper : String → String) (row : Row)
        (rows : List Row) (st : Store3),
      (row.filterMap id).length < 2 →
      processRowsV2 headings mapper (row :: rows) st
        = processRowsV2 headings mapper rows st) ∧
    (∀ (mapper : String → String) (name : String) (cells : List String)
        (hs : List String) (i : Nat) (st : Store3),
      cells.length ≤ 2 * i + 1 →
      decodeRowV2 mapper name cells hs i st = st) := by
  constructor
  · intro headings mapper row rows st hlen
    have hstep : stepRowV2 headings mapper st row = st := by
      cases hc : row.filterMap id with
      | nil => simp [stepRowV2, hc]
      | cons c0 tl =>
        cases tl with
        | nil => simp [stepRowV2, hc]
        | cons c1 tl2 =>
          rw [hc] at hlen
          simp at hlen
          omega
    unfold processRowsV2
    rw [List.foldl_cons, hstep]
  · intro mapper name cells hs
    induction hs with
    | nil => intro i st _; rfl
    | cons h hs' ih =>
      intro i st hlen
      have h1 : cells[2 * i + 1]? = none := List.getElem?_eq_none (by omega)
      have hstep : decodeRowV2 mapper name cells (h :: hs') i st
          = decodeRowV2 mapper name cells hs' (i + 1) st := by
        cases h0 : cells[2 * i]? with
        | none => simp [decodeRowV2, h0, h1]
        | some op => simp [decodeRowV2, h0, h1]
      rw [hstep]
      exact ih (i + 1) st (by omega)

/-- Witness for C7 (amended): a one-cell row is skipped while the following
good row is still processed, and a one-cell pair region stores nothing. -/
theorem c7_v2_recovery_witness :
    processRowsV2 ["Actions"] (fun _ => "UC")
        [[some "only"], [some "P", some "F", some "Allow", some "G"]] []
      = processRowsV2 ["Actions"] (fun _ => "UC")
        [[some "P", some "F", some "Allow", some "G"]] [] ∧
    decodeRowV2 (fun _ => "UC") "P" ["Allow"] ["Actions"] 0 [] = [] :=
  ⟨c7_v2_recovery.1 ["Actions"] (fun _ => "UC") [some "only"]
     [[some "P", some "F", some "Allow", some "G"]] [] (by decide),
   c7_v2_recovery.2 (fun _ => "UC") "P" ["Allow"] ["Actions"] 0 [] (by decide)⟩

/-- A found index is below the start plus the list length. -/
theorem findIdx?_some_lt {α : Type} (p : α → Bool) :
    ∀ (l : List α) (s c : Nat), List.findIdx? p l s = some c → c < s + l.length := by
  intro l
  induction l with
  | nil => intro s c h; simp [List.findIdx?] at h
  | cons a tl ih =>
    intro s c h
    rw [List.findIdx?_cons] at h
    by_cases hp : p a = true
    · rw [if_pos hp] at h
      cases h
      simp
    · rw [if_neg hp] at h
      have := ih (s + 1) c h
      simp at this ⊢
      omega

/-- Category keywords of the V2 structure scanner
(`access_profile_automation_v2.py`, line 133: `Dial` without the trailing
space V1 uses). -/
def categoryKeywordsV2 : List String :=
  ["Conductor", "storm Contact", "UC", "DataManagement", "Dial", "Flow"]

/-- Heading keywords of the V2 structure scanner (line 151). -/
def headingKeywordsV2 : List String :=
  ["Actions", "Announcements", "Menus", "Parameters", "Services"]

/-- V2 row preprocessing: the stripped string values of the non-null cells. -/
def rowValuesV2 (row : Row) : List String := (row.filterMap id).map pyStrip

/-- V2 keyword test: some keyword appears verbatim among the row's values. -/
def rowMatchesV2 (keys : List String) (row : Row) : Bool :=
  keys.any fun k => (rowValuesV2 row).contains k

/-- The V2 error message when no categories row is found (line 148). -/
def catMsgV2 : String :=
  "Could not find categories row in Excel file. Expected keywords: ['Conductor', 'storm Contact', 'UC', 'DataManagement', 'Dial', 'Flow']"

/-- The V2 error message when no headings row is found (line 168). -/
def headMsgV2 : String :=
  "Could not find headings row in Excel file. Expected keywords: ['Actions', 'Announcements', 'Menus', 'Parameters', 'Services']"

/-- The V2 structure scanner `_find_structure_rows`: the categories row is
sought among rows 0..10 (`if idx > 10: break`), the headings row among the
ten rows after it; failure raises with a message naming the expected keyword
set; data starts right after the headings row. -/
def findStructureRows (grid : Grid) : Except String (Nat × Nat × Nat) :=
  match (grid.take 11).findIdx? (rowMatchesV2 categoryKeywordsV2) with
  | none => .error catMsgV2
  | some c =>
    match ((grid.drop (c + 1)).take 10).findIdx? (rowMatchesV2 headingKeywordsV2) with
    | none => .error headMsgV2
    | some k => .ok (c, c + 1 + k, c + 1 + k + 1)

/-- Claim C8: header location scans a bounded window — if no row in the
11-row category window matches the category keywords, or no row in the
10-row window after the category row matches the heading keywords, the scan
fails with the error message naming the unmatched keyword set (first two
conjuncts, with each keyword verbatim in its message — last conjunct), and
the result never depends on rows beyond the bounded prefix (third
conjunct). -/
theorem c8_bounded_header_scan :
    (∀ grid : Grid,
      (∀ r ∈ grid.take 11, rowMatchesV2 categoryKeywordsV2 r = false) →
      findStructureRows grid = .error catMsgV2) ∧
    (∀ (grid : Grid) (c : Nat),
      (grid.take 11).findIdx? (rowMatchesV2 categoryKeywordsV2) = some c →
      (∀ r ∈ (grid.drop (c + 1)).take 10, rowMatchesV2 headingKeywordsV2 r = false) →
      findStructureRows grid = .error headMsgV2) ∧
    (∀ grid : Grid, findStructureRows grid = findStructureRows (grid.take 21)) ∧
    (categoryKeywordsV2.all (fun k => strContains catMsgV2 k) = true ∧
     headingKeywordsV2.all (fun k => strContains headMsgV2 k) = true) := by
  refine ⟨?_, ?_, ?_, by decide, by decide⟩
  · intro grid hall
    unfold findStructureRows
    rw [List.findIdx?_eq_none_iff.mpr hall]
  · intro grid c hfind hall
    unfold findStructureRows
    simp only [hfind]
    rw [List.findIdx?_eq_none_iff.mpr hall]
  · intro grid
    unfold findStructureRows
    rw [List.take_take, show (11 : Nat) ⊓ 21 = 11 by decide]
    cases hfind : (grid.take 11).findIdx? (rowMatchesV2 categoryKeywordsV2) with
    | none => simp only [hfind]
    | some c =>
      have hc : c < 11 := by
        have := findIdx?_some_lt _ _ _ _ hfind
        have hlen : (grid.take 11).length ≤ 11 := by
          simp [List.length_take]
        omega
      have hwin : List.take 10 (List.drop (c + 1) (List.take 21 grid))
          = List.take 10 (List.drop (c + 1) grid) := by
        rw [List.drop_take, List.take_take]
        congr 1
        omega
      simp only [hfind, hwin]

/-- Witness for C8: a grid with no category keyword fails naming the
category keywords; a grid whose only row is the category row has no heading
row in the window and fails naming the heading keywords. -/
theorem c8_bounded_header_scan_witness :
    findStructureRows [[some "X"]] = .error catMsgV2 ∧
    findStructureRows [[some "UC"]] = .error headMsgV2 :=
  ⟨c8_bounded_header_scan.1 [[some "X"]] (by decide),
   c8_bounded_header_scan.2.1 [[some "UC"]] 0 (by decide) (by decide)⟩

/-- How V1 sheet selection can fail: the descriptive `ValueError` carrying a
message (explicit sheet name absent, line 39), or the bare
`UnboundLocalError` at line 54 when the substring scan assigned no sheet. -/
inductive SheetError where
  | notFoundMsg (msg : String)
  | unboundLocal
deriving DecidableEq, Repr

/-- Python `repr` of the sheet-name list as interpolated into the V1 error
message. -/
def sheetListRepr (names : List String) : String :=
  "[" ++ String.intercalate ", " (names.map (fun s => "'" ++ s ++ "'")) ++ "]"

/-- V1 sheet selection (lines 33-45): a single-sheet workbook uses the
active sheet; an explicit name is looked up, with a descriptive error
listing the available sheets when absent; otherwise the first sheet whose
lower-cased name contains `"accessprofiles"` is used, and if none does, the
later `sheet.iter_rows` raises `UnboundLocalError`. -/
def selectSheet (sheetnames : List String) (activeName : String)
    (sheetname : Option String) : Except SheetError String :=
  if sheetnames.length = 1 then .ok activeName
  else
    match sheetname with
    | some sn =>
      if sheetnames.contains sn then .ok sn
      else .error (.notFoundMsg ("Sheet '" ++ sn ++
        "' not found in the workbook. Available sheets: " ++ sheetListRepr sheetnames))
    | none =>
      match sheetnames.find? (fun n => strContains (pyLower n) "accessprofiles") with
      | some n => .ok n
      | none => .error .unboundLocal

/-- Counterexample to claim C9 as stated: with two sheets, no explicit name
and no sheet name containing the marker substring, selection fails with the
bare unbound-variable error — not a sheet-not-found error surfacing the
available sheet names. -/
theorem c9_counterexample :
    selectSheet ["Summary", "Data"] "Summary" none = .error .unboundLocal := by
  rfl

/-- Claim C9 (amended): only the explicitly-named branch fails with the
descriptive error listing the available sheet names (first conjunct, for
workbooks with more than one sheet); when selection falls back to the
name-substring scan and no sheet name contains `"accessprofiles"`, the
failure is an `UnboundLocalError` that carries no sheet list (second
conjunct). -/
theorem c9_sheet_errors :
    (∀ (names : List String) (a sn : String),
      names.length ≠ 1 → names.contains sn = false →
      selectSheet names a (some sn) =
        .error (.notFoundMsg ("Sheet '" ++ sn ++
          "' not found in the workbook. Available sheets: " ++ sheetListRepr names))) ∧
    (∀ (names : List String) (a : String),
      names.length ≠ 1 →
      (∀ n ∈ names, strContains (pyLower n) "accessprofiles" = false) →
      selectSheet names a none = .error .unboundLocal) := by
  constructor
  · intro names a sn hlen hmem
    have hmem' : sn ∉ names := by simpa using hmem
    simp [selectSheet, hlen, hmem']
  · intro names a hlen hall
    have hfind : names.find? (fun n => strContains (pyLower n) "accessprofiles") = none :=
      List.find?_eq_none.mpr (fun n hn => by simp [hall n hn])
    simp [selectSheet, hlen, hfind]

/-- Witness for C9 (amended) on a concrete two-sheet workbook. -/
theorem c9_sheet_errors_witness :
    selectSheet ["Summary", "Data"] "Summary" (some "Missing") =
      .error (.notFoundMsg
        "Sheet 'Missing' not found in the workbook. Available sheets: ['Summary', 'Data']") ∧
    selectSheet ["Summary", "Data"] "Summary" none = .error .unboundLocal :=
  ⟨c9_sheet_errors.1 ["Summary", "Data"] "Summary" "Missing" (by decide) (by decide),
   c9_sheet_errors.2 ["Summary", "Data"] "Summary" (by decide) (by decide)⟩

/-- Counterexample to claim C10 as stated: a row with a single cell — fewer
than 2 times the heading count — decodes without any out-of-bounds access
(indeed without any fault), because the lone operator is a sentinel and
neither `row[2*i+1]` nor `categories[cat_index]` is ever evaluated; the
claimed equivalence fails in the only-if direction. -/
theorem c10_counterexample :
    decodeLoop ["UC"] [some "none"] ["Actions"] 0 0 = .ok [] ∧
    ¬(2 * (["Actions"] : List String).length ≤ ([some "none"] : List Cell).length) :=
  ⟨rfl, by decide⟩

/-- Fault-freedom of the V1 inner loop, generalized over the suffix of
headings, the heading index and the incoming cursor. -/
theorem decodeLoop_no_oob (cats : List String) (cells : List Cell) :
    ∀ (hs : List String) (i c : Nat),
      c + hs.countP (fun h => boundaryHeadings.contains h) < cats.length →
      2 * (i + hs.length) ≤ cells.length →
      decodeLoop cats cells hs i c ≠ .error .outOfBounds := by
  intro hs
  induction hs with
  | nil => intro i c _ _; simp [decodeLoop]
  | cons h tl ih =>
    intro i c hcat hlen
    have hi0 : 2 * i < cells.length := by
      simp [List.length_cons] at hlen
      omega
    have hi1 : 2 * i + 1 < cells.length := by
      simp [List.length_cons] at hlen
      omega
    have hcat' : (if h ∈ boundaryHeadings then c + 1 else c)
        + tl.countP (fun h => boundaryHeadings.contains h) < cats.length := by
      by_cases hb : h ∈ boundaryHeadings <;>
        simp [List.countP_cons, hb] at hcat <;> simp [hb] <;> omega
    have hlen' : 2 * ((i + 1) + tl.length) ≤ cells.length := by
      simp [List.length_cons] at hlen
      omega
    have ihcall := ih (i + 1) (if h ∈ boundaryHeadings then c + 1 else c) hcat' hlen'
    have hop := List.getElem?_eq_getElem hi0
    cases hcell : cells[2 * i] with
    | none =>
      rw [hcell] at hop
      simp [decodeLoop, hop]
    | some op =>
      rw [hcell] at hop
      by_cases hsent : pyLower op ∈ sentinelOperators
      · simpa [decodeLoop, hop, hsent] using ihcall
      · have hv := List.getElem?_eq_getElem hi1
        have hclt : (if h ∈ boundaryHeadings then c + 1 else c) < cats.length := by
          omega
        have hcatget := List.getElem?_eq_getElem hclt
        cases hrec : decodeLoop cats cells tl (i + 1)
            (if h ∈ boundaryHeadings then c + 1 else c) with
        | error e =>
          have he : e ≠ .outOfBounds := by
            intro hcon
            subst hcon
            exact ihcall hrec
          simp [decodeLoop, hop, hsent, hv, hcatget, hrec, he]
        | ok rest =>
          simp [decodeLoop, hop, hsent, hv, hcatget, hrec]

/-- Claim C10 (amended): the claimed conditions are sufficient but not
necessary.  If the number of category-boundary heading occurrences is
strictly below the number of categories and the row supplies at least
2 times the heading count of cells after name and filter, the decode never
raises an out-of-bounds access on `row[2*i]`, `row[2*i+1]` or
`categories[cat_index]`; the converse fails (`c10_counterexample`): a
shorter row whose trailing operators are sentinels decodes without any
out-of-bounds access. -/
theorem c10_oob_bounds (cats hds : List String) (cells : List Cell)
    (hcat : hds.countP (fun h => boundaryHeadings.contains h) < cats.length)
    (hlen : 2 * hds.length ≤ cells.length) :
    decodeLoop cats cells hds 0 0 ≠ .error .outOfBounds :=
  decodeLoop_no_oob cats cells hds 0 0 (by simpa using hcat) (by simpa using hlen)

/-- Witness for C10 (amended): one non-boundary heading, two categories and
a full two-cell pair region decode without out-of-bounds faults. -/
theorem c10_oob_bounds_witness :
    decodeLoop ["UC", "Flow"] [some "Allow", some "G"] ["Actions"] 0 0
      ≠ .error .outOfBounds :=
  c10_oob_bounds ["UC", "Flow"] ["Actions"] [some "Allow", some "G"]
    (by decide) (by decide)
